import Mathlib

/-!
Verification development for the prospect_to_lead repository.

The embedding models `langgraph_builder.py` (placeholder resolution over the
shared LangGraph state, workflow validation, the node wrapper, linear graph
execution and the `main` entry point) and the agents in `agents/`
(`ScoringAgent.run` in full, and the input-validation paths of
`ProspectSearchAgent.run` and `FeedbackTrainerAgent.run`).

Python values are modelled by the JSON-like type `JVal`; Python numbers
(int and float) are modelled by exact rationals, so `round(x, 2)` is modelled
as rounding to the nearest multiple of 1/100 (the claims proved here do not
depend on binary floating point representation or on tie-breaking).
Python dicts are modelled as association lists with first-match lookup and
in-place update (`dset`), which preserves the Python insertion-order semantics
for dicts without duplicate keys.  Raised exceptions are modelled with
`Except String`; log output that a claim observes (`logger.warning`) is
returned alongside the result.  Wall-clock fields of the result dicts
(timestamps, durations) and the `final_state` count summary are outside a
shallow embedding and are omitted from `ExecReport`.
-/

/-- JSON-like values: the data manipulated by the workflow engine. -/
inductive JVal where
  | s (v : String)
  | q (v : ℚ)
  | b (v : Bool)
  | arr (vs : List JVal)
  | dict (d : List (String × JVal))
  | null

/-- A Python dict of JSON-like values, in insertion order. -/
abbrev Dict := List (String × JVal)

/-- First-match lookup, modelling `d[k]` / `d.get(k)` on a Python dict. -/
def dget (d : Dict) (k : String) : Option JVal :=
  (d.find? (fun p => p.1 = k)).map (fun p => p.2)

/-- Key membership, modelling `k in d` on a Python dict. -/
def containsKey (d : Dict) (k : String) : Bool :=
  (dget d k).isSome

/-- In-place update `d[k] = v`: replaces the value at the first occurrence of
`k`, keeping its position, or appends a new binding (Python dict semantics). -/
def dset (d : Dict) (k : String) (v : JVal) : Dict :=
  match d with
  | [] => [(k, v)]
  | (k0, v0) :: rest => if k0 = k then (k, v) :: rest else (k0, v0) :: dset rest k v

/-- Split a character list at every occurrence of `sep`, keeping empty pieces,
modelling Python `str.split(sep)` for a one-character separator. -/
def charSplit (sep : Char) : List Char → List (List Char)
  | [] => [[]]
  | c :: rest =>
    match charSplit sep rest with
    | [] => [[]]
    | h :: t => if c = sep then [] :: h :: t else (c :: h) :: t

/-- Drop characters satisfying `p` from both ends, modelling Python
`str.strip(...)`. -/
def pyStripPred (p : Char → Bool) (s : List Char) : List Char :=
  ((s.dropWhile p).reverse.dropWhile p).reverse

/-- The character class stripped by `placeholder.strip(chars)` in
`extract_state_key`, where chars is the two brace characters. -/
def isBraceChar (c : Char) : Bool := c = '\x7b' || c = '\x7d'

/-- Python `s.startswith(pre)`. -/
def pyStartsWith (s pre : String) : Bool := pre.data.isPrefixOf s.data

/-- Python `s.endswith(suf)`. -/
def pyEndsWith (s suf : String) : Bool := suf.data.isSuffixOf s.data

/-- Python `ref.split(".")`. -/
def pySplitDot (s : String) : List String :=
  (charSplit '.' s.data).map (fun cs => ⟨cs⟩)

/-- The dot-segments of a placeholder after stripping braces and whitespace:
`placeholder.strip(braces).strip().split(".")`
(langgraph_builder.py lines 289-292). -/
def refParts (placeholder : String) : List String :=
  pySplitDot ⟨pyStripPred Char.isWhitespace (pyStripPred isBraceChar placeholder.data)⟩

/-- `extract_state_key` (langgraph_builder.py lines 279-299): if the stripped
reference splits into at least three dot-segments and the second is `output`,
return the third segment; otherwise return the last segment. -/
def extract_state_key (placeholder : String) : String :=
  let parts := refParts placeholder
  match parts with
  | _ :: b :: c :: rest => if b = "output" then c else (c :: rest).getLastD ""
  | other => other.getLastD ""

/-- The warning text `logger.warning` emits for an unresolved state key
(langgraph_builder.py line 271). -/
def warnMsg (key : String) : String :=
  "State key \u0027" ++ key ++ "\u0027 not found in state"

/-- Resolution of one input value (the loop body of
`prepare_inputs_from_state`, langgraph_builder.py lines 262-274): a string
value that starts with two opening braces and ends with two closing braces is
replaced by the state value at its extracted key when present, and otherwise
kept literally with a warning; every other value passes through unchanged.
The second component collects the emitted warnings. -/
def resolveEntry (state : Dict) (v : JVal) : JVal × List String :=
  match v with
  | .s str =>
    if pyStartsWith str "\x7b\x7b" && pyEndsWith str "\x7d\x7d" then
      match dget state (extract_state_key str) with
      | some x => (x, [])
      | none => (.s str, [warnMsg (extract_state_key str)])
    else (.s str, [])
  | v => (v, [])

/-- `prepare_inputs_from_state` (langgraph_builder.py lines 249-276), with the
emitted warnings collected in order as the second component.  The function
raises no exception on any input. -/
def prepare_inputs_from_state (input_config : Dict) (state : Dict) : Dict × List String :=
  match input_config with
  | [] => ([], [])
  | (k, v) :: rest =>
    let r := resolveEntry state v
    let rs := prepare_inputs_from_state rest state
    ((k, r.1) :: rs.1, r.2 ++ rs.2)

/-- The `output_mapping` table of `update_state_with_output`
(langgraph_builder.py lines 315-323). -/
def output_mapping : List (String × String) :=
  [("prospect_search", "leads"), ("enrichment", "enriched_leads"),
   ("scoring", "ranked_leads"), ("outreach_content", "messages"),
   ("send", "sent_status"), ("response_tracking", "responses"),
   ("feedback_trainer", "recommendations")]

/-- The flat state keys, `output_mapping.values()`. -/
def stateKeys : List String := output_mapping.map (fun p => p.2)

/-- `update_state_with_output` (langgraph_builder.py lines 302-337): each
output entry whose key is one of the known state keys is written directly;
otherwise, when the step id appears in `output_mapping`, the entry is written
to the mapped state key; all other entries are dropped.  Nothing is stored
under the step id itself (the comment at line 334 mentions storing the raw
output under the step id, but no code follows it).  `applyOutputEntry` is the
loop body for one output entry. -/
def applyOutputEntry (step_id : String) (st : Dict) (kv : String × JVal) : Dict :=
  if stateKeys.contains kv.1 then dset st kv.1 kv.2
  else
    match output_mapping.lookup step_id with
    | some sk => dset st sk kv.2
    | none => st

/-- The loop of `update_state_with_output` over the output entries in
insertion order. -/
def update_state_with_output (state : Dict) (step_id : String) (output : Dict) : Dict :=
  output.foldl (applyOutputEntry step_id) state

/-- One step of the workflow as read by `create_node_function`
(langgraph_builder.py lines 180-192): its id, its agent name and its raw
input mapping.  `instructions`, `tools` and `output_schema` are forwarded
only to the agent configuration and play no role in the claims. -/
structure Step where
  id : String
  agent : String
  inputs : Dict

/-- The `run` method of an agent: resolved inputs to either an output dict or a
raised exception, modelled with `Except`. -/
abbrev Handler := Dict → Except String Dict

/-- Numeric state read `state.get(k, dflt)` (the engine only stores numbers
under `step_count`). -/
def getQ (d : Dict) (k : String) (dflt : ℚ) : ℚ :=
  match dget d k with
  | some (.q x) => x
  | _ => dflt

/-- The `node_function` wrapper (langgraph_builder.py lines 194-241): resolve
inputs from state, run the agent, merge the output into the state and bump
`step_count`; an exception escaping the agent is re-raised (line 241), so the
error propagates out of the node.  The mutation of `state[errors]` before the
re-raise is unobservable, because LangGraph discards the state of a raising
invocation and `execute_langgraph` only sees the exception itself. -/
def node_function (h : Handler) (step : Step) (state : Dict) : Except String Dict :=
  match h (prepare_inputs_from_state step.inputs state).1 with
  | .ok output =>
    let st := update_state_with_output state step.id output
    .ok (dset st "step_count" (.q (getQ st "step_count" 0 + 1)))
  | .error e => .error e

/-- Execution of the linear chain built by `build_langgraph`
(langgraph_builder.py lines 344-404, `graph.invoke`): nodes run in step
order; a raising node aborts the run and the exception propagates.  The first
component is the list of ids of the nodes that were invoked. -/
def runSteps (H : String → Handler) : List Step → Dict → List String × Except String Dict
  | [], state => ([], .ok state)
  | step :: rest, state =>
    match node_function (H step.agent) step state with
    | .ok st =>
      let r := runSteps H rest st
      (step.id :: r.1, r.2)
    | .error e => ([step.id], .error e)

/-- The initial state of `execute_langgraph` (lines 430-438): `step_count`,
`errors`, plus every input of the first step whose value is not a string
starting with two opening braces. -/
def initialState (firstInputs : Dict) : Dict :=
  firstInputs.foldl
    (fun st kv =>
      match kv.2 with
      | .s str => if pyStartsWith str "\x7b\x7b" then st else dset st kv.1 kv.2
      | v => dset st kv.1 v)
    [("step_count", .q 0), ("errors", .arr [])]

/-- `final_state.get("errors", [])`. -/
def getErrorsList (st : Dict) : List JVal :=
  match dget st "errors" with
  | some (.arr l) => l
  | _ => []

/-- The run report built by `execute_langgraph` (lines 450-464 on success,
474-481 on a propagated exception).  Timestamps, durations and the
`final_state` count summary are omitted (wall-clock data is outside the
embedding); `steps_executed` and `errors` are `none` exactly when the code
omits those keys, i.e. in the exception branch. -/
structure ExecReport where
  workflow_name : String
  status : String
  steps_executed : Option ℚ
  errors : Option (List JVal)
  errorMsg : Option String

/-- `execute_langgraph` (langgraph_builder.py lines 411-481).  On a normal
run the status is `completed` when the accumulated error list is empty and
`partial_failure` otherwise; when a node raises, the status is `failed` and
only the error message is reported. -/
def execute_langgraph (H : String → Handler) (wfName : String) (steps : List Step) :
    List String × ExecReport :=
  let init := initialState (steps.headD ⟨"", "", []⟩).inputs
  match runSteps H steps init with
  | (tr, .ok final) =>
    (tr,
     { workflow_name := wfName
       status := if (getErrorsList final).isEmpty then "completed" else "partial_failure"
       steps_executed := some (getQ final "step_count" 0)
       errors := some (getErrorsList final)
       errorMsg := none })
  | (tr, .error e) =>
    (tr,
     { workflow_name := wfName
       status := "failed"
       steps_executed := none
       errors := none
       errorMsg := some e })

/-- The per-step required fields of `validate_workflow`
(langgraph_builder.py line 119). -/
def requiredStepFields : List String := ["id", "agent", "inputs", "instructions"]

/-- The first field of `fs` missing from `d`, in order: the field whose check
raises first in the validation loop (lines 120-123). -/
def firstMissingField (d : Dict) : List String → Option String
  | [] => none
  | f :: fs => if containsKey d f then firstMissingField d fs else some f

/-- The step id used in validation error messages,
`step.get("id", "step_" + str(i))` (line 116); a non-string id value is
abbreviated to the fallback (the exact message text of that corner is not
load-bearing for any claim). -/
def stepIdFor (i : Nat) (d : Dict) : String :=
  match dget d "id" with
  | some (.s s) => s
  | _ => "step_" ++ toString i

/-- The per-step validation loop (langgraph_builder.py lines 115-124),
starting from index `i`.  A non-dict step raises in Python when `in` is
applied to it; it is modelled as an error here. -/
def checkSteps : Nat → List JVal → Except String Bool
  | _, [] => .ok true
  | i, .dict d :: rest =>
    match firstMissingField d requiredStepFields with
    | none => checkSteps (i + 1) rest
    | some f => .error ("Step \u0027" ++ stepIdFor i d ++ "\u0027 missing field: " ++ f)
  | _, _ => .error "TypeError: step is not a mapping"

/-- `validate_workflow` (langgraph_builder.py lines 85-127): requires
`workflow_name` and `steps`, requires `steps` to be a non-empty list, then
validates every step; returns `True` when everything passes, raises
(`Except.error`) otherwise. -/
def validate_workflow (w : Dict) : Except String Bool :=
  if containsKey w "workflow_name" then
    if containsKey w "steps" then
      match dget w "steps" with
      | some (.arr steps) =>
        if steps.isEmpty then .error "Workflow must have at least one step"
        else checkSteps 1 steps
      | _ => .error "Workflow must have at least one step"
    else .error "Missing required field: steps"
  else .error "Missing required field: workflow_name"

/-- A step mapping containing all four required fields. -/
def stepWellFormed (step : JVal) : Bool :=
  match step with
  | .dict d => requiredStepFields.all (containsKey d)
  | _ => false

/-- A workflow mapping that `validate_workflow` accepts: both required
top-level fields present, `steps` a non-empty list, and every step a mapping
with the four required fields. -/
def wellFormedWorkflow (w : Dict) : Bool :=
  containsKey w "workflow_name" && containsKey w "steps" &&
    (match dget w "steps" with
     | some (.arr steps) => !steps.isEmpty && steps.all stepWellFormed
     | _ => false)

/-- String read `d.get(k)` with a default, used for `workflow_name` and the
step fields when constructing nodes. -/
def getStrD (d : Dict) (k : String) (dflt : String) : String :=
  match dget d k with
  | some (.s s) => s
  | _ => dflt

/-- The fields `build_langgraph` reads from a raw step mapping
(langgraph_builder.py lines 365-379). -/
def parseStep (step : JVal) : Step :=
  match step with
  | .dict d =>
    { id := getStrD d "id" ""
      agent := getStrD d "agent" ""
      inputs := match dget d "inputs" with
                | some (.dict i) => i
                | _ => [] }
  | _ => ⟨"", "", []⟩

/-- The raw step list of a workflow mapping. -/
def rawSteps (w : Dict) : List JVal :=
  match dget w "steps" with
  | some (.arr l) => l
  | _ => []

/-- `main` (langgraph_builder.py lines 519-546): load, validate, build,
execute, then save the results.  File loading is abstracted as the
already-obtained `loaded` value (`load_workflow` either returns the parsed
mapping or raises); agent-class loading is abstracted by the total handler
table `H`.  Any exception raised by loading or validation is re-raised by
`main` (line 546), so such a run produces no report at all: the result is
`Except.error` and the invocation trace is empty. -/
def mainRun (loaded : Except String Dict) (H : String → Handler) :
    List String × Except String ExecReport :=
  match loaded with
  | .error e => ([], .error e)
  | .ok w =>
    match validate_workflow w with
    | .error e => ([], .error e)
    | .ok _ =>
      let r := execute_langgraph H (getStrD w "workflow_name" "") ((rawSteps w).map parseStep)
      (r.1, .ok r.2)

/-- `BaseAgent.validate_inputs` (base_agent.py lines 89-111): collect the
required fields missing from the inputs; validation passes when none are
missing. -/
def validate_inputs (inputs : Dict) (required : List String) : Bool :=
  (required.filter (fun f => !containsKey inputs f)).isEmpty

/-- Python truthiness of a JSON-like value. -/
def truthy : JVal → Bool
  | .s v => !v.isEmpty
  | .q v => v != 0
  | .b v => v
  | .arr vs => !vs.isEmpty
  | .dict d => !d.isEmpty
  | .null => false

/-- The revenue component of `ScoringAgent._calculate_score`
(scoring_agent.py lines 111-119). -/
def calcRevenueScore (revenue : ℚ) : ℚ :=
  if revenue ≥ 200000000 then 100
  else if revenue ≥ 20000000 then 50 + ((revenue - 20000000) / 180000000) * 50
  else (revenue / 20000000) * 50

/-- The employee-count component of `ScoringAgent._calculate_score`
(scoring_agent.py lines 121-128). -/
def calcEmployeeScore (employees : ℚ) : ℚ :=
  if 100 ≤ employees ∧ employees ≤ 1000 then 100
  else if employees > 1000 then 80
  else (employees / 100) * 80

/-- Numeric field read `lead.get(k, dflt)` whose value then enters an order
comparison: a present non-numeric value raises a `TypeError` in Python. -/
def getNumField (lead : Dict) (k : String) (dflt : ℚ) : Except String ℚ :=
  match dget lead k with
  | some (.q x) => .ok x
  | some _ => .error ("TypeError: unorderable field " ++ k)
  | none => .ok dflt

/-- `ScoringAgent._calculate_score` (scoring_agent.py lines 95-141): weighted
sum of the three component scores, capped at 100. -/
def calculate_score (lead : Dict) (rw ew sw : ℚ) : Except String ℚ := do
  let revenue ← getNumField lead "revenue" 50000000
  let employees ← getNumField lead "employee_count" 300
  let signalScore : ℚ := if truthy ((dget lead "signal").getD (.s "")) then 100 else 50
  return min (calcRevenueScore revenue * rw + calcEmployeeScore employees * ew
      + signalScore * sw) 100

/-- Python `round(x, 2)` on the exact rational model: the nearest multiple of
1/100 (the claims proved below do not depend on tie-breaking or on binary
float representation). -/
def round2 (x : ℚ) : ℚ := ((round (x * 100) : ℤ) : ℚ) / 100

/-- Weight read `scoring_criteria.get(k, dflt)` (scoring_agent.py lines
56-58); a non-mapping criteria value or a non-numeric weight raises in
Python (at the attribute access, respectively in the multiplication). -/
def getWeight (criteria : JVal) (k : String) (dflt : ℚ) : Except String ℚ :=
  match criteria with
  | .dict c =>
    match dget c k with
    | some (.q x) => .ok x
    | some _ => .error ("TypeError: weight " ++ k)
    | none => .ok dflt
  | _ => .error "AttributeError: get"

/-- The sort key `x["score"]` of the ranking sort (scoring_agent.py line 76);
every scored lead carries a numeric score by construction. -/
def scoreKey (l : Dict) : ℚ :=
  match dget l "score" with
  | some (.q x) => x
  | _ => 0

/-- The loop body of the scoring loop (scoring_agent.py lines 62-73):
`lead.copy()` followed by attaching the rounded score; a non-mapping lead
raises at the copy. -/
def scoreLead (rw ew sw : ℚ) (l : JVal) : Except String Dict :=
  match l with
  | .dict d => do
    let sc ← calculate_score d rw ew sw
    return dset d "score" (.q (round2 sc))
  | _ => .error "AttributeError: copy"

/-- The scoring loop over the whole lead list, first failure first. -/
def mapScore (rw ew sw : ℚ) : List JVal → Except String (List Dict)
  | [] => .ok []
  | l :: ls => do
    let sd ← scoreLead rw ew sw l
    let rest ← mapScore rw ew sw ls
    return sd :: rest

/-- The comparison of the ranking sort: `a` may come before `b` when the
score of `a` is at least the score of `b` (descending order; ties keep the
original order because the sort is stable). -/
def scoreLe (a b : Dict) : Bool := decide (scoreKey b ≤ scoreKey a)

/-- The ranking tail of `ScoringAgent.run` (scoring_agent.py lines 75-93):
sort the scored copies by score, highest first (`sorted(..., reverse=True)`,
a stable sort, modelled by `mergeSort`), attach 1-based `ranking` numbers,
and return them.  The success log line reads `ranked_leads[0]["company"]`,
so a top lead without a `company` key raises a `KeyError`. -/
def rankScored (scored : List Dict) : Except String Dict :=
  let ranked := scored.mergeSort scoreLe
  let ranked2 := ranked.enum.map (fun p => dset p.2 "ranking" (.q (p.1 + 1)))
  match ranked2.head? with
  | some first =>
    match dget first "company" with
    | some _ => .ok [("ranked_leads", .arr (ranked2.map JVal.dict))]
    | none => .error "KeyError: company"
  | none => .error "IndexError: list index out of range"

/-- `ScoringAgent.run` (scoring_agent.py lines 28-93): missing `leads` or a
falsy lead list returns `{"ranked_leads": []}`; otherwise every lead is
copied, scored and the copies are ranked by `rankScored`. -/
def ScoringAgent.run (inputs : Dict) : Except String Dict :=
  if validate_inputs inputs ["leads"] then
    let leadsV := (dget inputs "leads").getD (.arr [])
    if truthy leadsV then
      match leadsV with
      | .arr ls =>
        let criteria := (dget inputs "scoring_criteria").getD (.dict [])
        match getWeight criteria "revenue_weight" (3 / 10) with
        | .error e => .error e
        | .ok rw =>
          match getWeight criteria "employee_count_weight" (1 / 5) with
          | .error e => .error e
          | .ok ew =>
            match getWeight criteria "signal_weight" (1 / 2) with
            | .error e => .error e
            | .ok sw =>
              match mapScore rw ew sw ls with
              | .error e => .error e
              | .ok scored => rankScored scored
      | _ => .error "TypeError: leads is not iterable"
    else .ok [("ranked_leads", .arr [])]
  else .ok [("ranked_leads", .arr [])]

/-- `ProspectSearchAgent.run` (prospect_search_agent.py lines 35-56): when
any of the four required inputs is missing the agent returns
`{"leads": []}` without raising; `rest` is the remainder of the body (mock
search and random sampling, lines 57-186), which is outside a deterministic
shallow embedding and is quantified over in the theorems that use it. -/
def ProspectSearchAgent.run (rest : Dict → Except String Dict) (inputs : Dict) :
    Except String Dict :=
  if validate_inputs inputs ["industry", "location", "employee_count", "signals"] then
    rest inputs
  else .ok [("leads", .arr [])]

/-- `FeedbackTrainerAgent.run` (feedback_trainer_agent.py lines 31-54):
missing `responses` returns a failed result, an empty response list returns a
no-data result; `rest` is the remainder of the body (simulated random
metrics, lines 56-90), quantified over in the theorems that use it. -/
def FeedbackTrainerAgent.run (rest : Dict → Except String Dict) (inputs : Dict) :
    Except String Dict :=
  if validate_inputs inputs ["responses"] then
    if truthy ((dget inputs "responses").getD (.arr [])) then rest inputs
    else .ok [("recommendations", .arr []), ("status", .s "no_data")]
  else .ok [("recommendations", .arr []), ("status", .s "failed")]

/-- A field that is a number when present (so a comparison or multiplication
on `d.get(k, default)` raises no `TypeError`). -/
def numOk (d : Dict) (k : String) : Bool :=
  match dget d k with
  | some (.q _) => true
  | some _ => false
  | none => true

/-- A lead as produced by the search agents: a mapping with a `company`
field whose `revenue` and `employee_count` fields, when present, are
numbers (so that scoring raises no `TypeError`). -/
def isLeadB (l : JVal) : Bool :=
  match l with
  | .dict d => containsKey d "company" && numOk d "revenue" && numOk d "employee_count"
  | _ => false

/-- Well-typed scoring criteria: absent, or a mapping whose three weight
fields are numbers when present. -/
def criteriaOk (inputs : Dict) : Bool :=
  match dget inputs "scoring_criteria" with
  | some (.dict c) =>
    numOk c "revenue_weight" && numOk c "employee_count_weight" && numOk c "signal_weight"
  | some _ => false
  | none => true

/-- The score value attached to a well-typed lead (the `.ok` value of
`calculate_score`). -/
def calcScoreVal (d : Dict) (rw ew sw : ℚ) : ℚ :=
  min (calcRevenueScore (getQ d "revenue" 50000000) * rw
      + calcEmployeeScore (getQ d "employee_count" 300) * ew
      + (if truthy ((dget d "signal").getD (.s "")) then (100 : ℚ) else 50) * sw) 100

/-- The underlying mapping of a lead value. -/
def asDict : JVal → Dict
  | .dict d => d
  | _ => []

/-- The scored copy of a well-typed lead: the lead with its rounded score
attached. -/
def scoredOf (rw ew sw : ℚ) (l : JVal) : Dict :=
  dset (asDict l) "score" (.q (round2 (calcScoreVal (asDict l) rw ew sw)))

/-- A concrete handler table for the counterexample and witness runs: agent
`B` raises, every other agent returns an empty output. -/
def Hboom : String → Handler :=
  fun n => if n = "B" then (fun _ => .error "boom") else (fun _ => .ok [])

theorem dget_cons (k0 : String) (v0 : JVal) (d : Dict) (k : String) :
    dget ((k0, v0) :: d) k = if k0 = k then some v0 else dget d k := by
  by_cases h : k0 = k <;> simp [dget, List.find?, h]

theorem dget_dset_self (d : Dict) (k : String) (v : JVal) :
    dget (dset d k v) k = some v := by
  induction d with
  | nil => simp [dset, dget_cons]
  | cons kv rest ih =>
    obtain ⟨k0, v0⟩ := kv
    by_cases h : k0 = k
    · simp [dset, h, dget_cons]
    · simp [dset, h, dget_cons, ih]

theorem dget_dset_ne (d : Dict) (k k2 : String) (v : JVal) (h : k2 ≠ k) :
    dget (dset d k v) k2 = dget d k2 := by
  induction d with
  | nil => simp [dset, dget_cons, Ne.symm h]
  | cons kv rest ih =>
    obtain ⟨k0, v0⟩ := kv
    by_cases h0 : k0 = k
    · subst h0
      simp [dset, dget_cons, Ne.symm h]
    · simp [dset, h0, dget_cons, ih]

theorem containsKey_dset_ne (d : Dict) (k k2 : String) (v : JVal) (h : k2 ≠ k) :
    containsKey (dset d k v) k2 = containsKey d k2 := by
  simp [containsKey, dget_dset_ne _ _ _ _ h]

theorem dget_prepare (cfg state : Dict) (k : String) :
    dget (prepare_inputs_from_state cfg state).1 k
      = (dget cfg k).map (fun v => (resolveEntry state v).1) := by
  induction cfg with
  | nil => simp [prepare_inputs_from_state, dget]
  | cons kv rest ih =>
    obtain ⟨k0, v0⟩ := kv
    by_cases h : k0 = k <;> simp [prepare_inputs_from_state, dget_cons, h, ih]

theorem getLastD_cons_irrel {α : Type} (c : α) (rest : List α) (x y : α) :
    (c :: rest).getLastD x = (c :: rest).getLastD y := by
  cases rest with
  | nil => rfl
  | cons r rs => rw [List.getLastD_cons x c (r :: rs), List.getLastD_cons y c (r :: rs)]

/-- C4: `extract_state_key` returns the third dot-segment when the stripped
reference splits into at least three segments with the second equal to
`output`, and otherwise falls back to the last dot-segment. -/
theorem C4_theorem (p : String) :
    (∀ a c rest, refParts p = a :: "output" :: c :: rest → extract_state_key p = c) ∧
    ((∀ a b c rest, refParts p = a :: b :: c :: rest → b ≠ "output") →
      extract_state_key p = (refParts p).getLastD "") := by
  constructor
  · intro a c rest h
    simp [extract_state_key, h]
  · intro h2
    simp only [extract_state_key]
    rcases hp : refParts p with _ | ⟨a, _ | ⟨b, _ | ⟨c, rest⟩⟩⟩
    · rfl
    · rfl
    · rfl
    · have hb : b ≠ "output" := h2 a b c rest hp
      simp only [if_neg hb]
      rw [List.getLastD_cons "" a (b :: c :: rest), List.getLastD_cons a b (c :: rest)]
      exact getLastD_cons_irrel c rest "" b

/-- C4 witness: a three-segment `step.output.field` reference yields the
third segment, and a one-segment reference falls back to the last one. -/
theorem C4_witness :
    extract_state_key "\x7b\x7bprospect_search.output.leads\x7d\x7d" = "leads" ∧
    extract_state_key "\x7b\x7bicp\x7d\x7d" = "icp" := by
  constructor
  · exact ( C4_theorem "\x7b\x7bprospect_search.output.leads\x7d\x7d").1
      "prospect_search" "leads" [] (by rfl)
  · have h2 : ∀ a b c rest, refParts "\x7b\x7bicp\x7d\x7d" = a :: b :: c :: rest →
        b ≠ "output" := by
      intro a b c rest hh
      rw [show refParts "\x7b\x7bicp\x7d\x7d" = ["icp"] from rfl] at hh
      simp at hh
    have h := ( C4_theorem "\x7b\x7bicp\x7d\x7d").2 h2
    rw [h]
    exact rfl

/-- C1 counterexample: a string value embedding a placeholder inside a larger
string, resolved against a state that binds the referenced value to 42 (both
under the nested reading and under the flat graph-state reading), is returned
verbatim; it is not rewritten to `prefix 42 suffix` as the claim states. -/
theorem C1_counterexample :
    (prepare_inputs_from_state
        [("body", .s "prefix \x7b\x7ba.output.b\x7d\x7d suffix")]
        [("a", .dict [("output", .dict [("b", .q 42)])]), ("b", .q 42)]).1
      = [("body", .s "prefix \x7b\x7ba.output.b\x7d\x7d suffix")] ∧
    ¬ (prepare_inputs_from_state
        [("body", .s "prefix \x7b\x7ba.output.b\x7d\x7d suffix")]
        [("a", .dict [("output", .dict [("b", .q 42)])]), ("b", .q 42)]).1
      = [("body", .s "prefix 42 suffix")] := by
  constructor
  · rfl
  · intro h
    rw [show (prepare_inputs_from_state
        [("body", .s "prefix \x7b\x7ba.output.b\x7d\x7d suffix")]
        [("a", .dict [("output", .dict [("b", .q 42)])]), ("b", .q 42)]).1
      = [("body", .s "prefix \x7b\x7ba.output.b\x7d\x7d suffix")] from rfl] at h
    simp at h

/-- C1 as amended: a string input value that does not both start with two
opening braces and end with two closing braces is passed through input
resolution unchanged, whatever it embeds; no substring substitution is
performed. -/
theorem C1_theorem (state cfg : Dict) (k str0 : String)
    (hv : dget cfg k = some (.s str0))
    (hshape : (pyStartsWith str0 "\x7b\x7b" && pyEndsWith str0 "\x7d\x7d") = false) :
    dget (prepare_inputs_from_state cfg state).1 k = some (.s str0) := by
  have h2 : ¬(pyStartsWith str0 "\x7b\x7b" = true ∧ pyEndsWith str0 "\x7d\x7d" = true) := by
    intro hc
    rw [hc.1, hc.2] at hshape
    simp at hshape
  rw [dget_prepare, hv]
  simp [resolveEntry, h2]

/-- C1 witness at a concrete embedded placeholder. -/
theorem C1_witness :
    dget (prepare_inputs_from_state
        [("note", .s "hello \x7b\x7ba.output.b\x7d\x7d")] [("b", .q 7)]).1 "note"
      = some (.s "hello \x7b\x7ba.output.b\x7d\x7d") :=
  C1_theorem [("b", .q 7)] [("note", .s "hello \x7b\x7ba.output.b\x7d\x7d")]
    "note" "hello \x7b\x7ba.output.b\x7d\x7d" (by rfl) (by decide)

/-- C7: a value that is exactly the placeholder for `missing.output.x`,
resolved against any state without an `x` key, is kept literally, the
warning naming the unresolved state key is emitted, and no exception is
raised (`prepare_inputs_from_state` is a total function). -/
theorem C7_theorem (state : Dict) (k : String) (h : containsKey state "x" = false) :
    prepare_inputs_from_state [(k, .s "\x7b\x7bmissing.output.x\x7d\x7d")] state
      = ([(k, .s "\x7b\x7bmissing.output.x\x7d\x7d")], [warnMsg "x"]) := by
  have hx : dget state "x" = none := by
    simpa [containsKey] using h
  have hcond : (pyStartsWith "\x7b\x7bmissing.output.x\x7d\x7d" "\x7b\x7b"
      && pyEndsWith "\x7b\x7bmissing.output.x\x7d\x7d" "\x7d\x7d") = true := by decide
  have hk : extract_state_key "\x7b\x7bmissing.output.x\x7d\x7d" = "x" := rfl
  simp [prepare_inputs_from_state, resolveEntry, hcond, hk, hx]

/-- C7 witness against the empty state. -/
theorem C7_witness :
    prepare_inputs_from_state [("xkey", .s "\x7b\x7bmissing.output.x\x7d\x7d")] []
      = ([("xkey", .s "\x7b\x7bmissing.output.x\x7d\x7d")], [warnMsg "x"]) :=
  C7_theorem [] "xkey" (by rfl)

/-- C8: a value that is exactly one placeholder resolves to the referenced
state value itself, with its native type, for every state and every value
`X`; the resolved value is never stringified.  In the graph variant the
store is the flat workflow state and the reference `a.output.b` is resolved
at its extracted key `b`. -/
theorem C8_theorem (state : Dict) (k : String) (X : JVal) (h : dget state "b" = some X) :
    prepare_inputs_from_state [(k, .s "\x7b\x7ba.output.b\x7d\x7d")] state
      = ([(k, X)], []) := by
  have hcond : (pyStartsWith "\x7b\x7ba.output.b\x7d\x7d" "\x7b\x7b"
      && pyEndsWith "\x7b\x7ba.output.b\x7d\x7d" "\x7d\x7d") = true := by decide
  have hk : extract_state_key "\x7b\x7ba.output.b\x7d\x7d" = "b" := rfl
  simp [prepare_inputs_from_state, resolveEntry, hcond, hk, h]

/-- C8 witness: a list value is returned as a list, not as a string. -/
theorem C8_witness :
    prepare_inputs_from_state [("leads", .s "\x7b\x7ba.output.b\x7d\x7d")]
        [("b", .arr [.q 1, .q 2])]
      = ([("leads", .arr [.q 1, .q 2])], []) :=
  C8_theorem [("b", .arr [.q 1, .q 2])] "leads" (.arr [.q 1, .q 2]) (by rfl)

theorem firstMissingField_eq_none (d : Dict) (fs : List String) :
    firstMissingField d fs = none ↔ fs.all (containsKey d) = true := by
  induction fs with
  | nil => simp [firstMissingField]
  | cons f fs ih =>
    by_cases h : containsKey d f = true <;> simp [firstMissingField, h, ih]

theorem stepWellFormed_dict {l : JVal} (h : stepWellFormed l = true) :
    ∃ d, l = .dict d ∧ requiredStepFields.all (containsKey d) = true := by
  cases l <;> simp_all [stepWellFormed]

theorem checkSteps_ok (steps : List JVal) (hws : ∀ s ∈ steps, stepWellFormed s = true) :
    ∀ i, checkSteps i steps = .ok true := by
  induction steps with
  | nil => intro i; rfl
  | cons s rest ih =>
    intro i
    obtain ⟨d, rfl, hall⟩ := stepWellFormed_dict (hws s (by simp))
    have hnone : firstMissingField d requiredStepFields = none :=
      (firstMissingField_eq_none d _).mpr hall
    simp only [checkSteps, hnone]
    exact ih (fun s2 hmem => hws s2 (by simp [hmem])) (i + 1)

theorem checkSteps_err :
    ∀ (steps : List JVal) (i : Nat), (∃ s0 ∈ steps, stepWellFormed s0 = false) →
      ∃ e, checkSteps i steps = .error e := by
  intro steps
  induction steps with
  | nil =>
    intro i h
    obtain ⟨s0, h0, _⟩ := h
    cases h0
  | cons s rest ih =>
    intro i h
    obtain ⟨s0, h0, hbad⟩ := h
    rcases List.mem_cons.mp h0 with rfl | hmem2
    · cases s0 with
      | dict d =>
        have hall : requiredStepFields.all (containsKey d) = false := by
          simpa [stepWellFormed] using hbad
        have hne : firstMissingField d requiredStepFields ≠ none := by
          rw [Ne, firstMissingField_eq_none, hall]
          simp
        obtain ⟨f, hf⟩ := Option.ne_none_iff_exists'.mp hne
        refine ⟨"Step \u0027" ++ stepIdFor i d ++ "\u0027 missing field: " ++ f, ?_⟩
        simp only [checkSteps, hf]
      | s v => exact ⟨_, rfl⟩
      | q v => exact ⟨_, rfl⟩
      | b v => exact ⟨_, rfl⟩
      | arr vs => exact ⟨_, rfl⟩
      | null => exact ⟨_, rfl⟩
    · cases s with
      | dict d =>
        cases hfm : firstMissingField d requiredStepFields with
        | none =>
          obtain ⟨e, he⟩ := ih (i + 1) ⟨s0, hmem2, hbad⟩
          exact ⟨e, by simp only [checkSteps, hfm]; exact he⟩
        | some f =>
          refine ⟨"Step \u0027" ++ stepIdFor i d ++ "\u0027 missing field: " ++ f, ?_⟩
          simp only [checkSteps, hfm]
      | s v => exact ⟨_, rfl⟩
      | q v => exact ⟨_, rfl⟩
      | b v => exact ⟨_, rfl⟩
      | arr vs => exact ⟨_, rfl⟩
      | null => exact ⟨_, rfl⟩

theorem validate_ok (w : Dict) (h : wellFormedWorkflow w = true) :
    validate_workflow w = .ok true := by
  have h3 : (containsKey w "workflow_name" && containsKey w "steps" &&
      (match dget w "steps" with
       | some (.arr steps) => !steps.isEmpty && steps.all stepWellFormed
       | _ => false)) = true := h
  rw [Bool.and_eq_true, Bool.and_eq_true] at h3
  obtain ⟨⟨h1, h2⟩, h3⟩ := h3
  cases hdg : dget w "steps" with
  | none => rw [hdg] at h3; simp at h3
  | some v =>
    cases v with
    | arr steps =>
      rw [hdg] at h3
      rw [Bool.and_eq_true] at h3
      obtain ⟨hne, hall⟩ := h3
      have hemp : ¬(steps.isEmpty = true) := by simp_all
      unfold validate_workflow
      rw [if_pos h1, if_pos h2, hdg]
      show (if steps.isEmpty = true then Except.error "Workflow must have at least one step"
          else checkSteps 1 steps) = Except.ok true
      rw [if_neg hemp]
      exact checkSteps_ok steps (by simpa [List.all_eq_true] using hall) 1
    | s v => rw [hdg] at h3; simp at h3
    | q v => rw [hdg] at h3; simp at h3
    | b v => rw [hdg] at h3; simp at h3
    | dict d => rw [hdg] at h3; simp at h3
    | null => rw [hdg] at h3; simp at h3

theorem validate_err (w : Dict) (h : wellFormedWorkflow w = false) :
    ∃ e, validate_workflow w = .error e := by
  by_cases h1 : containsKey w "workflow_name" = true
  · by_cases h2 : containsKey w "steps" = true
    · cases hdg : dget w "steps" with
      | none =>
        rw [containsKey, hdg] at h2
        simp at h2
      | some v =>
        cases v with
        | arr steps =>
          by_cases hemp : steps.isEmpty = true
          · refine ⟨"Workflow must have at least one step", ?_⟩
            unfold validate_workflow
            rw [if_pos h1, if_pos h2, hdg]
            show (if steps.isEmpty = true then Except.error "Workflow must have at least one step"
                else checkSteps 1 steps) = Except.error "Workflow must have at least one step"
            rw [if_pos hemp]
          · have hex : ∃ x ∈ steps, stepWellFormed x = false := by
              have h3 : (containsKey w "workflow_name" && containsKey w "steps" &&
                  (match dget w "steps" with
                   | some (.arr steps) => !steps.isEmpty && steps.all stepWellFormed
                   | _ => false)) = false := h
              rw [hdg] at h3
              simpa [h1, h2, hemp] using h3
            obtain ⟨e, he⟩ := checkSteps_err steps 1 hex
            refine ⟨e, ?_⟩
            unfold validate_workflow
            rw [if_pos h1, if_pos h2, hdg]
            show (if steps.isEmpty = true then Except.error "Workflow must have at least one step"
                else checkSteps 1 steps) = Except.error e
            rw [if_neg hemp]
            exact he
        | s v =>
          exact ⟨"Workflow must have at least one step",
            by unfold validate_workflow; rw [if_pos h1, if_pos h2, hdg]⟩
        | q v =>
          exact ⟨"Workflow must have at least one step",
            by unfold validate_workflow; rw [if_pos h1, if_pos h2, hdg]⟩
        | b v =>
          exact ⟨"Workflow must have at least one step",
            by unfold validate_workflow; rw [if_pos h1, if_pos h2, hdg]⟩
        | dict d =>
          exact ⟨"Workflow must have at least one step",
            by unfold validate_workflow; rw [if_pos h1, if_pos h2, hdg]⟩
        | null =>
          exact ⟨"Workflow must have at least one step",
            by unfold validate_workflow; rw [if_pos h1, if_pos h2, hdg]⟩
    · exact ⟨"Missing required field: steps",
        by unfold validate_workflow; rw [if_pos h1, if_neg h2]⟩
  · exact ⟨"Missing required field: workflow_name",
        by unfold validate_workflow; rw [if_neg h1]⟩

theorem mainRun_validate_err (w : Dict) (H : String → Handler) (e : String)
    (h : validate_workflow w = .error e) : mainRun (.ok w) H = ([], .error e) := by
  simp [mainRun, h]

/-- C6: every malformed workflow mapping (missing `workflow_name` or `steps`,
`steps` not a non-empty list, or a step without one of the four required
fields) makes `validate_workflow` raise, and `main` then re-raises before
any handler is invoked (the invocation trace is empty) and before any report
entry is produced; every well-formed workflow validates to `True`. -/
theorem C6_theorem (w : Dict) (H : String → Handler) :
    (wellFormedWorkflow w = true → validate_workflow w = .ok true) ∧
    (wellFormedWorkflow w = false →
      ∃ e, validate_workflow w = .error e ∧ mainRun (.ok w) H = ([], .error e)) := by
  constructor
  · exact validate_ok w
  · intro h
    obtain ⟨e, he⟩ := validate_err w h
    exact ⟨e, he, mainRun_validate_err w H e he⟩

/-- C6 witness: a well-formed one-step workflow validates to `True`; a
workflow without `steps` raises and `main` produces no report and invokes no
handler. -/
theorem C6_witness :
    validate_workflow [("workflow_name", .s "wf"),
      ("steps", .arr [.dict [("id", .s "s1"), ("agent", .s "A"),
        ("inputs", .dict []), ("instructions", .s "go")]])] = .ok true ∧
    ∃ e, validate_workflow [("workflow_name", .s "wf")] = .error e ∧
      mainRun (.ok [("workflow_name", .s "wf")]) Hboom = ([], .error e) := by
  constructor
  · exact (C6_theorem [("workflow_name", .s "wf"),
      ("steps", .arr [.dict [("id", .s "s1"), ("agent", .s "A"),
        ("inputs", .dict []), ("instructions", .s "go")]])] Hboom).1 (by rfl)
  · exact (C6_theorem [("workflow_name", .s "wf")] Hboom).2 (by rfl)

/-- C5 counterexample: a run whose workflow fails validation (here: the
`steps` key is missing) produces no structured report at all: `main`
re-raises the exception, so the result is an error, not a report with status
`failed`. -/
theorem C5_counterexample :
    mainRun (.ok [("workflow_name", .s "wf")]) Hboom
      = ([], .error "Missing required field: steps") ∧
    ∀ r : ExecReport, (mainRun (.ok [("workflow_name", .s "wf")]) Hboom).2 ≠ .ok r := by
  refine ⟨rfl, ?_⟩
  intro r hr
  rw [show (mainRun (.ok [("workflow_name", .s "wf")]) Hboom).2
      = Except.error "Missing required field: steps" from rfl] at hr
  exact Except.noConfusion hr

/-- C5 as amended: every run that reaches execution produces a structured
report, including runs that stop early (a raising node yields a report with
status `failed` carrying the error message); a run whose workflow fails to
load or validate produces no report, because `main` re-raises the exception,
and that raised exception is observably distinct from any returned report,
in particular from a `partial_failure` one. -/
theorem C5_theorem :
    (∀ (H : String → Handler) (name : String) (steps : List Step)
        (tr : List String) (e : String),
      runSteps H steps (initialState (steps.headD ⟨"", "", []⟩).inputs) = (tr, .error e) →
      execute_langgraph H name steps
        = (tr, { workflow_name := name, status := "failed", steps_executed := none,
                 errors := none, errorMsg := some e })) ∧
    (∀ (w : Dict) (H : String → Handler) (e : String), validate_workflow w = .error e →
      (mainRun (.ok w) H).2 = .error e ∧
      ∀ r : ExecReport, (mainRun (.ok w) H).2 ≠ .ok r) := by
  constructor
  · intro H name steps tr e h
    unfold execute_langgraph
    simp only [h]
  · intro w H e h
    rw [mainRun_validate_err w H e h]
    exact ⟨rfl, fun r hr => Except.noConfusion hr⟩

/-- C5 witness: a one-step run whose only node raises still yields a full
report (status `failed` with the error), and a workflow without `steps`
yields an error and no report. -/
theorem C5_witness :
    execute_langgraph Hboom "wf" [⟨"s1", "B", []⟩]
      = (["s1"], { workflow_name := "wf", status := "failed", steps_executed := none,
                   errors := none, errorMsg := some "boom" }) ∧
    (mainRun (.ok [("workflow_name", .s "wf")]) Hboom).2
      = .error "Missing required field: steps" ∧
    ∀ r : ExecReport, (mainRun (.ok [("workflow_name", .s "wf")]) Hboom).2 ≠ .ok r := by
  refine ⟨C5_theorem.1 Hboom "wf" [⟨"s1", "B", []⟩] ["s1"] "boom" (by rfl), ?_⟩
  exact C5_theorem.2 [("workflow_name", .s "wf")] Hboom "Missing required field: steps" (by rfl)

/-- C2 counterexample: in the 3-step run where the handler of step 2 raises, the
reported status is `failed`, not `partial_failure` as the claim states, and
only steps 1 and 2 are ever invoked. -/
theorem C2_counterexample :
    (execute_langgraph Hboom "wf"
        [⟨"s1", "A", []⟩, ⟨"s2", "B", []⟩, ⟨"s3", "C", []⟩]).2.status = "failed" ∧
    (execute_langgraph Hboom "wf"
        [⟨"s1", "A", []⟩, ⟨"s2", "B", []⟩, ⟨"s3", "C", []⟩]).2.status ≠ "partial_failure" ∧
    (execute_langgraph Hboom "wf"
        [⟨"s1", "A", []⟩, ⟨"s2", "B", []⟩, ⟨"s3", "C", []⟩]).1 = ["s1", "s2"] := by
  refine ⟨rfl, ?_, rfl⟩
  intro h
  rw [show (execute_langgraph Hboom "wf"
      [⟨"s1", "A", []⟩, ⟨"s2", "B", []⟩, ⟨"s3", "C", []⟩]).2.status = "failed" from rfl] at h
  simp at h

/-- C2 as amended: in every 3-step linear run where step 1 succeeds and the
handler of step 2 raises, step 3 is never invoked (the trace is exactly the first
two step ids), the exception propagates, and the report has status `failed`
with the error message and no per-step results (`steps_executed` and
`errors` are absent). -/
theorem C2_theorem (H : String → Handler) (name : String) (s1 s2 s3 : Step)
    (st1 : Dict) (e : String)
    (h1 : node_function (H s1.agent) s1 (initialState s1.inputs) = .ok st1)
    (h2 : node_function (H s2.agent) s2 st1 = .error e) :
    execute_langgraph H name [s1, s2, s3]
      = ([s1.id, s2.id],
         { workflow_name := name, status := "failed", steps_executed := none,
           errors := none, errorMsg := some e }) := by
  have hrun : runSteps H [s1, s2, s3] (initialState s1.inputs)
      = ([s1.id, s2.id], .error e) := by
    simp [runSteps, h1, h2]
  unfold execute_langgraph
  simp only [show ([s1, s2, s3].headD ⟨"", "", []⟩) = s1 from rfl, hrun]

/-- C2 witness at the concrete 3-step workflow. -/
theorem C2_witness :
    execute_langgraph Hboom "wf" [⟨"s1", "A", []⟩, ⟨"s2", "B", []⟩, ⟨"s3", "C", []⟩]
      = (["s1", "s2"],
         { workflow_name := "wf", status := "failed", steps_executed := none,
           errors := none, errorMsg := some "boom" }) :=
  C2_theorem Hboom "wf" ⟨"s1", "A", []⟩ ⟨"s2", "B", []⟩ ⟨"s3", "C", []⟩ _ "boom" rfl rfl

theorem lookup_output_mapping_mem (id sk : String)
    (h : output_mapping.lookup id = some sk) : stateKeys.contains sk = true := by
  simp [output_mapping, List.lookup] at h
  repeat' split at h
  all_goals simp_all [stateKeys, output_mapping]

theorem applyOutputEntry_preserves (st : Dict) (id : String) (kv : String × JVal)
    (hid : stateKeys.contains id = false) (hst : containsKey st id = false) :
    containsKey (applyOutputEntry id st kv) id = false := by
  unfold applyOutputEntry
  by_cases hkv : stateKeys.contains kv.1 = true
  · rw [if_pos hkv]
    have hne : id ≠ kv.1 := by
      intro hh
      rw [← hh] at hkv
      rw [hid] at hkv
      cases hkv
    rw [containsKey_dset_ne _ _ _ _ hne]
    exact hst
  · rw [if_neg hkv]
    cases hlk : output_mapping.lookup id with
    | none => exact hst
    | some sk =>
      have hsk := lookup_output_mapping_mem id sk hlk
      have hne : id ≠ sk := by
        intro hh
        rw [← hh] at hsk
        rw [hid] at hsk
        cases hsk
      rw [containsKey_dset_ne _ _ _ _ hne]
      exact hst

/-- C3 counterexample: after a step with id `mystep` (not one of the mapped
step ids) returns the output `{"foo": 1}`, the shared state has no entry at
all under `mystep`; in particular it does not hold
`{"output": {"foo": 1}}` there as the claim states. -/
theorem C3_counterexample :
    dget (update_state_with_output [("step_count", .q 0), ("errors", .arr [])]
        "mystep" [("foo", .q 1)]) "mystep" = none ∧
    dget (update_state_with_output [("step_count", .q 0), ("errors", .arr [])]
        "mystep" [("foo", .q 1)]) "mystep"
      ≠ some (.dict [("output", .dict [("foo", .q 1)])]) := by
  refine ⟨rfl, ?_⟩
  intro h
  rw [show dget (update_state_with_output [("step_count", .q 0), ("errors", .arr [])]
      "mystep" [("foo", .q 1)]) "mystep" = none from rfl] at h
  exact Option.noConfusion h

/-- C3 as amended: the step executor merges the output into flat state keys
(a known state key directly; other entries via the step-id table) and never
creates an entry under the step id itself: when the step id is not one of
the seven state keys and not already a state key of the store, it is still
absent after the update, while an output entry at a known state key is
written to that key. -/
theorem C3_theorem :
    (∀ (state : Dict) (step_id : String) (output : Dict),
      stateKeys.contains step_id = false → containsKey state step_id = false →
      containsKey (update_state_with_output state step_id output) step_id = false) ∧
    (∀ (state : Dict) (step_id k : String) (v : JVal), stateKeys.contains k = true →
      dget (update_state_with_output state step_id [(k, v)]) k = some v) := by
  constructor
  · intro state id output hid
    induction output generalizing state with
    | nil => exact fun hst => hst
    | cons kv rest ih =>
      intro hst
      have hstep : update_state_with_output state id (kv :: rest)
          = update_state_with_output (applyOutputEntry id state kv) id rest := rfl
      rw [hstep]
      exact ih _ (applyOutputEntry_preserves state id kv hid hst)
  · intro state id k v hk
    have hstep : update_state_with_output state id [(k, v)]
        = applyOutputEntry id state (k, v) := rfl
    rw [hstep]
    unfold applyOutputEntry
    rw [if_pos hk]
    exact dget_dset_self state k v

/-- C3 witness: a fresh state gains no `mystep` entry, and a direct
state-key output entry is written through. -/
theorem C3_witness :
    containsKey (update_state_with_output [("step_count", .q 0), ("errors", .arr [])]
        "mystep" [("foo", .q 1)]) "mystep" = false ∧
    dget (update_state_with_output [("step_count", .q 0), ("errors", .arr [])]
        "scoring" [("ranked_leads", .arr [])]) "ranked_leads" = some (.arr []) := by
  constructor
  · exact C3_theorem.1 [("step_count", .q 0), ("errors", .arr [])] "mystep"
      [("foo", .q 1)] (by decide) (by rfl)
  · exact C3_theorem.2 [("step_count", .q 0), ("errors", .arr [])] "scoring"
      "ranked_leads" (.arr []) (by decide)

/-- C9: a handler invocation with a missing required key returns an
empty/failed result mapping and raises nothing: `ScoringAgent.run` without
`leads` returns `{"ranked_leads": []}`, `ProspectSearchAgent.run` without
`industry` returns `{"leads": []}`, and `FeedbackTrainerAgent.run` without
`responses` returns `{"recommendations": [], "status": "failed"}` — each as
an `Except.ok` value, for every input mapping and (for the latter two) every
remainder of the agent body. -/
theorem C9_theorem :
    (∀ inputs : Dict, containsKey inputs "leads" = false →
      ScoringAgent.run inputs = .ok [("ranked_leads", .arr [])]) ∧
    (∀ (rest : Dict → Except String Dict) (inputs : Dict),
      containsKey inputs "industry" = false →
      ProspectSearchAgent.run rest inputs = .ok [("leads", .arr [])]) ∧
    (∀ (rest : Dict → Except String Dict) (inputs : Dict),
      containsKey inputs "responses" = false →
      FeedbackTrainerAgent.run rest inputs
        = .ok [("recommendations", .arr []), ("status", .s "failed")]) := by
  refine ⟨?_, ?_, ?_⟩
  · intro inputs h
    have hv : validate_inputs inputs ["leads"] = false := by
      simp [validate_inputs, List.filter, h]
    simp [ScoringAgent.run, hv]
  · intro rest inputs h
    have hv : validate_inputs inputs ["industry", "location", "employee_count", "signals"]
        = false := by
      simp [validate_inputs, List.filter, h]
    simp [ProspectSearchAgent.run, hv]
  · intro rest inputs h
    have hv : validate_inputs inputs ["responses"] = false := by
      simp [validate_inputs, List.filter, h]
    simp [FeedbackTrainerAgent.run, hv]

/-- C9 witness at the empty input mapping. -/
theorem C9_witness :
    ScoringAgent.run [] = .ok [("ranked_leads", .arr [])] ∧
    ProspectSearchAgent.run (fun _ => .ok []) [] = .ok [("leads", .arr [])] ∧
    FeedbackTrainerAgent.run (fun _ => .ok []) []
      = .ok [("recommendations", .arr []), ("status", .s "failed")] :=
  ⟨C9_theorem.1 [] (by rfl), C9_theorem.2.1 (fun _ => .ok []) [] (by rfl),
   C9_theorem.2.2 (fun _ => .ok []) [] (by rfl)⟩

theorem getNumField_ok (d : Dict) (k : String) (dflt : ℚ) (h : numOk d k = true) :
    getNumField d k dflt = .ok (getQ d k dflt) := by
  revert h
  unfold numOk getNumField getQ
  cases dget d k with
  | none => intro _; rfl
  | some v => cases v <;> intro h <;> first | rfl | exact Bool.noConfusion h

theorem getWeight_dict_ok (c : Dict) (k : String) (dflt : ℚ) (h : numOk c k = true) :
    getWeight (.dict c) k dflt = .ok (getQ c k dflt) := by
  have hred : getWeight (.dict c) k dflt
      = (match dget c k with
         | some (.q x) => .ok x
         | some _ => .error ("TypeError: weight " ++ k)
         | none => .ok dflt) := rfl
  rw [hred]
  revert h
  unfold numOk getQ
  cases dget c k with
  | none => intro _; rfl
  | some v => cases v <;> intro h <;> first | rfl | exact Bool.noConfusion h

theorem calculate_score_ok (d : Dict) (wR wE wS : ℚ)
    (h1 : numOk d "revenue" = true) (h2 : numOk d "employee_count" = true) :
    calculate_score d wR wE wS = .ok (calcScoreVal d wR wE wS) := by
  unfold calculate_score calcScoreVal
  rw [getNumField_ok d "revenue" 50000000 h1, getNumField_ok d "employee_count" 300 h2]
  rfl

theorem scoreLead_ok (wR wE wS : ℚ) (l : JVal) (h : isLeadB l = true) :
    scoreLead wR wE wS l = .ok (scoredOf wR wE wS l) := by
  cases l with
  | dict d =>
    have h3 : (containsKey d "company" && numOk d "revenue" && numOk d "employee_count")
        = true := h
    rw [Bool.and_eq_true, Bool.and_eq_true] at h3
    obtain ⟨⟨_, h1⟩, h2⟩ := h3
    have hred : scoreLead wR wE wS (JVal.dict d)
        = (calculate_score d wR wE wS).bind
            (fun sc => Except.ok (dset d "score" (JVal.q (round2 sc)))) := rfl
    rw [hred, calculate_score_ok d wR wE wS h1 h2]
    rfl
  | s v => exact Bool.noConfusion h
  | q v => exact Bool.noConfusion h
  | b v => exact Bool.noConfusion h
  | arr vs => exact Bool.noConfusion h
  | null => exact Bool.noConfusion h

theorem mapScore_ok (wR wE wS : ℚ) (ls : List JVal) (h : ∀ l ∈ ls, isLeadB l = true) :
    mapScore wR wE wS ls = .ok (ls.map (scoredOf wR wE wS)) := by
  induction ls with
  | nil => rfl
  | cons l ls ih =>
    unfold mapScore
    rw [scoreLead_ok wR wE wS l (h l (by simp)), ih (fun x hx => h x (by simp [hx]))]
    rfl

theorem round2_le_100 (x : ℚ) (h : x ≤ 100) : round2 x ≤ 100 := by
  unfold round2
  have h1 : x * 100 ≤ 10000 := by linarith
  have h2 := abs_le.mp (abs_sub_round (x * 100))
  have h4 : ((round (x * 100) : ℤ) : ℚ) < 10001 := by linarith [h2.1, h2.2]
  have h5 : (round (x * 100) : ℤ) < 10001 := by exact_mod_cast h4
  have h7 : ((round (x * 100) : ℤ) : ℚ) ≤ 10000 := by exact_mod_cast (by omega : (round (x * 100) : ℤ) ≤ 10000)
  linarith

theorem calcScoreVal_le_100 (d : Dict) (wR wE wS : ℚ) :
    calcScoreVal d wR wE wS ≤ 100 :=
  min_le_right _ _

theorem scoreKey_scoredOf (wR wE wS : ℚ) (l : JVal) :
    scoreKey (scoredOf wR wE wS l) = round2 (calcScoreVal (asDict l) wR wE wS) := by
  unfold scoreKey scoredOf
  rw [dget_dset_self]

theorem scoreKey_set_ranking (l : Dict) (v : JVal) :
    scoreKey (dset l "ranking" v) = scoreKey l := by
  unfold scoreKey
  rw [dget_dset_ne l "ranking" "score" v (by decide)]

theorem mem_enum_snd {α : Type} {p : Nat × α} {l : List α} (h : p ∈ l.enum) : p.2 ∈ l := by
  have h2 := List.mem_map_of_mem Prod.snd h
  rwa [List.enum_map_snd] at h2

theorem pairwise_enum {α : Type} {R : α → α → Prop} {l : List α} (h : l.Pairwise R) :
    l.enum.Pairwise (fun p q => R p.2 q.2) := by
  have h2 : (l.enum.map Prod.snd).Pairwise R := by rwa [List.enum_map_snd]
  exact List.pairwise_map.mp h2

theorem scoreLe_trans (a b c : Dict) (h1 : scoreLe a b = true) (h2 : scoreLe b c = true) :
    scoreLe a c = true := by
  unfold scoreLe at *
  exact decide_eq_true (le_trans (of_decide_eq_true h2) (of_decide_eq_true h1))

theorem scoreLe_total (a b : Dict) : (scoreLe a b || scoreLe b a) = true := by
  unfold scoreLe
  rcases le_total (scoreKey a) (scoreKey b) with h | h <;> simp [h]

theorem rankScored_spec (scored : List Dict) (hne : scored ≠ [])
    (hcomp : ∀ l ∈ scored, (dget l "company").isSome = true) :
    ∃ out : List Dict,
      rankScored scored = .ok [("ranked_leads", .arr (out.map JVal.dict))] ∧
      out.length = scored.length ∧
      out.Pairwise (fun a b => scoreKey b ≤ scoreKey a) ∧
      (∀ (i : Nat) (h : i < out.length), dget out[i] "ranking" = some (.q (i + 1))) ∧
      (∀ l2 ∈ out, ∃ l ∈ scored, ∃ rk : ℚ, l2 = dset l "ranking" (.q rk)) := by
  refine ⟨(scored.mergeSort scoreLe).enum.map
    (fun p => dset p.2 "ranking" (.q (p.1 + 1))), ?_, ?_, ?_, ?_, ?_⟩
  · unfold rankScored
    have hlen2 : ((scored.mergeSort scoreLe).enum.map
        (fun p => dset p.2 "ranking" (.q (p.1 + 1)))).length = scored.length := by
      simp [List.enum_length, List.length_mergeSort]
    cases hh : ((scored.mergeSort scoreLe).enum.map
        (fun p => dset p.2 "ranking" (.q (p.1 + 1)))).head? with
    | none =>
      rw [List.head?_eq_none_iff] at hh
      rw [hh] at hlen2
      simp at hlen2
      exact absurd (List.length_eq_zero.mp hlen2.symm) hne
    | some first =>
      have hmem := List.mem_of_mem_head? (Option.mem_def.mpr hh)
      obtain ⟨p, hp, hfirst⟩ := List.mem_map.mp hmem
      have hps : p.2 ∈ scored := List.mem_mergeSort.mp (mem_enum_snd hp)
      have hcs := hcomp p.2 hps
      obtain ⟨cv, hcv⟩ := Option.isSome_iff_exists.mp hcs
      have hfc : dget first "company" = some cv := by
        rw [← hfirst, dget_dset_ne p.2 "ranking" "company" _ (by decide), hcv]
      simp only [hh, hfc]
  · simp [List.enum_length, List.length_mergeSort]
  · have hsorted : (scored.mergeSort scoreLe).Pairwise
        (fun a b => scoreKey b ≤ scoreKey a) := by
      have hp := List.sorted_mergeSort scoreLe_trans scoreLe_total scored
      exact hp.imp (fun h => of_decide_eq_true h)
    rw [List.pairwise_map]
    have he := pairwise_enum hsorted
    exact he.imp (fun {p q} h => by
      rw [scoreKey_set_ranking, scoreKey_set_ranking]
      exact h)
  · intro i hi
    have hi2 : i < (scored.mergeSort scoreLe).enum.length := by
      simpa using hi
    rw [List.getElem_map]
    rw [List.getElem_enum]
    exact dget_dset_self _ "ranking" _
  · intro l2 hl2
    obtain ⟨p, hp, hl⟩ := List.mem_map.mp hl2
    exact ⟨p.2, List.mem_mergeSort.mp (mem_enum_snd hp), p.1 + 1, hl.symm⟩

theorem isLeadB_dict {l : JVal} (h : isLeadB l = true) :
    ∃ d, l = .dict d ∧ containsKey d "company" = true := by
  cases l with
  | dict d =>
    have h3 : (containsKey d "company" && numOk d "revenue" && numOk d "employee_count")
        = true := h
    rw [Bool.and_eq_true, Bool.and_eq_true] at h3
    exact ⟨d, rfl, h3.1.1⟩
  | s v => exact Bool.noConfusion h
  | q v => exact Bool.noConfusion h
  | b v => exact Bool.noConfusion h
  | arr vs => exact Bool.noConfusion h
  | null => exact Bool.noConfusion h

/-- C10: for every non-empty list of leads (mappings with a `company` field
and numeric `revenue` and `employee_count` fields where present) and
well-typed scoring criteria, `ScoringAgent.run` returns `ranked_leads`
sorted in non-increasing score order, with the `ranking` field of each entry
equal to its 1-based position, every score at most 100, exactly one entry
per input lead, and each entry built from a copy of an input lead with
`score` and `ranking` attached (the inputs themselves are never written:
the code copies each lead before attaching its fields). -/
theorem C10_theorem (inputs : Dict) (leads : List JVal)
    (hL : dget inputs "leads" = some (.arr leads))
    (hne : leads ≠ [])
    (hlead : ∀ l ∈ leads, isLeadB l = true)
    (hc : criteriaOk inputs = true) :
    ∃ out : List Dict,
      ScoringAgent.run inputs = .ok [("ranked_leads", .arr (out.map JVal.dict))] ∧
      out.length = leads.length ∧
      out.Pairwise (fun a b => scoreKey b ≤ scoreKey a) ∧
      (∀ (i : Nat) (h : i < out.length), dget out[i] "ranking" = some (.q (i + 1))) ∧
      (∀ l2 ∈ out, scoreKey l2 ≤ 100) ∧
      (∀ l2 ∈ out, ∃ d, JVal.dict d ∈ leads ∧ ∃ sc rk : ℚ,
        l2 = dset (dset d "score" (.q sc)) "ranking" (.q rk)) := by
  have hweights : ∃ wR wE wS : ℚ,
      getWeight ((dget inputs "scoring_criteria").getD (.dict []))
          "revenue_weight" (3 / 10) = .ok wR ∧
      getWeight ((dget inputs "scoring_criteria").getD (.dict []))
          "employee_count_weight" (1 / 5) = .ok wE ∧
      getWeight ((dget inputs "scoring_criteria").getD (.dict []))
          "signal_weight" (1 / 2) = .ok wS := by
    revert hc
    unfold criteriaOk
    cases dget inputs "scoring_criteria" with
    | none => intro _; exact ⟨3 / 10, 1 / 5, 1 / 2, rfl, rfl, rfl⟩
    | some v =>
      cases v with
      | dict c =>
        intro hc
        rw [Bool.and_eq_true, Bool.and_eq_true] at hc
        obtain ⟨⟨hc1, hc2⟩, hc3⟩ := hc
        exact ⟨_, _, _, getWeight_dict_ok c _ _ hc1, getWeight_dict_ok c _ _ hc2,
          getWeight_dict_ok c _ _ hc3⟩
      | s v => intro hc; exact Bool.noConfusion hc
      | q v => intro hc; exact Bool.noConfusion hc
      | b v => intro hc; exact Bool.noConfusion hc
      | arr vs => intro hc; exact Bool.noConfusion hc
      | null => intro hc; exact Bool.noConfusion hc
  obtain ⟨wR, wE, wS, hw1, hw2, hw3⟩ := hweights
  have hvi : validate_inputs inputs ["leads"] = true := by
    simp [validate_inputs, List.filter, containsKey, hL]
  have htr : truthy (JVal.arr leads) = true := by
    cases leads with
    | nil => cases hne rfl
    | cons a as => rfl
  have hms := mapScore_ok wR wE wS leads hlead
  have hrun : ScoringAgent.run inputs = rankScored (leads.map (scoredOf wR wE wS)) := by
    unfold ScoringAgent.run
    rw [if_pos hvi, hL]
    simp only [Option.getD_some, htr, eq_self_iff_true, if_true, hw1, hw2, hw3, hms]
  rw [hrun]
  have hscne : leads.map (scoredOf wR wE wS) ≠ [] := by
    intro hh
    rw [List.map_eq_nil_iff] at hh
    exact hne hh
  have hsccomp : ∀ l ∈ leads.map (scoredOf wR wE wS), (dget l "company").isSome = true := by
    intro l hl
    obtain ⟨l0, hl0, rfl⟩ := List.mem_map.mp hl
    obtain ⟨d, rfl, hcomp⟩ := isLeadB_dict (hlead l0 hl0)
    have hcc : dget (scoredOf wR wE wS (JVal.dict d)) "company" = dget d "company" := by
      unfold scoredOf
      rw [dget_dset_ne _ _ _ _ (by decide)]
      rfl
    rw [hcc]
    exact hcomp
  obtain ⟨out, hspec1, hspec2, hspec3, hspec4, hspec5⟩ :=
    rankScored_spec (leads.map (scoredOf wR wE wS)) hscne hsccomp
  refine ⟨out, hspec1, ?_, hspec3, hspec4, ?_, ?_⟩
  · rw [hspec2, List.length_map]
  · intro l2 hl2
    obtain ⟨l, hl, rk, rfl⟩ := hspec5 l2 hl2
    rw [scoreKey_set_ranking]
    obtain ⟨l0, hl0, rfl⟩ := List.mem_map.mp hl
    rw [scoreKey_scoredOf]
    exact round2_le_100 _ (calcScoreVal_le_100 _ _ _ _)
  · intro l2 hl2
    obtain ⟨l, hl, rk, rfl⟩ := hspec5 l2 hl2
    obtain ⟨l0, hl0, rfl⟩ := List.mem_map.mp hl
    obtain ⟨d, rfl, _⟩ := isLeadB_dict (hlead l0 hl0)
    exact ⟨d, hl0, round2 (calcScoreVal d wR wE wS), rk, rfl⟩

/-- C10 witness at a concrete two-lead input. -/
theorem C10_witness :
    ∃ out : List Dict,
      ScoringAgent.run [("leads", .arr
          [.dict [("company", .s "A"), ("revenue", .q 50000000),
                  ("employee_count", .q 300), ("signal", .s "x")],
           .dict [("company", .s "B")]])]
        = .ok [("ranked_leads", .arr (out.map JVal.dict))] ∧
      out.length = 2 ∧
      out.Pairwise (fun a b => scoreKey b ≤ scoreKey a) ∧
      (∀ l2 ∈ out, scoreKey l2 ≤ 100) := by
  obtain ⟨out, h1, h2, h3, _, h5, _⟩ :=
    C10_theorem [("leads", .arr
        [.dict [("company", .s "A"), ("revenue", .q 50000000),
                ("employee_count", .q 300), ("signal", .s "x")],
         .dict [("company", .s "B")]])]
      [.dict [("company", .s "A"), ("revenue", .q 50000000),
              ("employee_count", .q 300), ("signal", .s "x")],
       .dict [("company", .s "B")]]
      rfl (by simp)
      (by
        intro l hl
        rcases List.mem_cons.mp hl with rfl | hl2
        · rfl
        · rcases List.mem_cons.mp hl2 with rfl | hl3
          · rfl
          · cases hl3)
      rfl
  exact ⟨out, h1, h2.trans rfl, h3, h5⟩
